import Mathlib

/-!
Verification of the Formula 1 data-cleaning pipeline against its
natural-language specification.  Each section shallowly embeds one part of
the source code (src/src/cleaning/clean_raw.py, src/src/cleaning/clean_merged.py,
src/src/utils/project_functions.py, src/src/utils/utils.py) as executable Lean
definitions, and proves or refutes the corresponding specification claim.
-/

namespace F1Pipeline

/-! ### Identity-map loading (src/src/utils/utils.py, load_id_map)

The Python function is:

  def load_id_map(path, default=None):
      if os.path.exists(path):
          with open(path) as f:
              return pickle.load(f)
      else:
          return {} if default is None else default

We model the state of the file at the given path as an Option: none when the
file does not exist, some content when it does.  The content either unpickles
to a map or is corrupt, in which case pickle.load raises; this is modelled by
an Except result.  The map itself is modelled as an association list. -/

/-- An identity map: observed text label to stable integer identifier. -/
abbrev IdMap : Type := List (String × Nat)

/-- State of the persisted file: absent, a valid pickled map, or corrupt bytes
that the pickle module cannot decode. -/
inductive FileContent where
  | pickled (m : IdMap)
  | corrupt
deriving DecidableEq

/-- Model of pickle.load: returns the stored map for a valid pickle file and
raises UnpicklingError on corrupt content. -/
def pickleLoad : FileContent → Except String IdMap
  | FileContent.pickled m => Except.ok m
  | FileContent.corrupt => Except.error "UnpicklingError"

/-- Embedding of load_id_map.  The file argument is none when no file exists at
the path.  Only in that case does the function substitute the empty map (or the
supplied default); an existing file is handed to pickle.load unconditionally,
so its errors propagate. -/
def load_id_map (file : Option FileContent) (dflt : Option IdMap) :
    Except String IdMap :=
  match file with
  | some c => pickleLoad c
  | none => Except.ok (dflt.getD [])

/-! ### Module import of clean_raw (src/src/cleaning/clean_raw.py, line 17)

clean_raw.py executes, at module load time,

  from src.utils.utils import load_id_map, save_id_map
  from src.utils.project_functions import convert_position, constructor_mapping,
      clean_qualifying_times, convert_pit_time, impute_pit_times

A Python from-import of a name that the source module does not define raises
ImportError, and the importing module never becomes usable.  We model each
module by the list of its top-level bound names (transcribed from the source
files) and from-import as a lookup of every requested name. -/

/-- Top-level names bound in src/src/utils/utils.py (imports and defs). -/
def utilsModuleNames : List String :=
  ["pd", "np", "os", "time", "tempfile", "shutil", "pickle", "requests",
   "webdriver", "By", "Options",
   "load_id_map", "is_file_locked", "save_id_map", "init_col_map",
   "create_browser", "print_progress_bar", "scrape_url_table",
   "aggregate_columns", "get_location_data", "compare_data_files"]

/-- Top-level names bound in src/src/utils/project_functions.py (imports,
module constants and defs).  Note that no definition named impute_pit_times
appears anywhere in that file. -/
def projectFunctionsModuleNames : List String :=
  ["pd", "np", "os", "sys", "re", "time", "timedelta",
   "current_dir", "PROJECT_ROOT", "constructor_mapping",
   "get_date", "handle_appending", "handle_successful_urls", "check_new_urls",
   "get_degradation_rate", "compute_compound_stats", "process_lap_file",
   "process_flag_file", "convert_position", "clean_qualifying_times",
   "convert_pit_time"]

/-- Names requested by the first from-import statement of clean_raw.py. -/
def cleanRawUtilsImports : List String := ["load_id_map", "save_id_map"]

/-- Names requested by the second from-import statement of clean_raw.py. -/
def cleanRawProjectFunctionsImports : List String :=
  ["convert_position", "constructor_mapping", "clean_qualifying_times",
   "convert_pit_time", "impute_pit_times"]

/-- Semantics of a Python from-import statement: the first requested name that
the source module does not bind raises ImportError. -/
def pythonFromImport (available requested : List String) :
    Except String Unit :=
  match requested.find? (fun n => !(available.contains n)) with
  | none => Except.ok ()
  | some n => Except.error ("ImportError: cannot import name " ++ n)

/-- Importing the clean_raw module runs its two from-import statements in
order. -/
def importCleanRaw : Except String Unit := do
  pythonFromImport utilsModuleNames cleanRawUtilsImports
  pythonFromImport projectFunctionsModuleNames cleanRawProjectFunctionsImports

/-- The cleaning entry points defined in clean_raw.py. -/
inductive CleanRawEntry where
  | idMap | results2001 | results2018 | practices2018 | qualifying2018
  | startingGrid2018 | pitStops2018 | laps | weather | flags
deriving DecidableEq

/-- Invoking an entry point of clean_raw first requires the module import to
have succeeded. -/
def invokeCleanRawEntry (e : CleanRawEntry) : Except String CleanRawEntry := do
  importCleanRaw
  pure e

/-! ### Output files of the raw-cleaning stages (clean_raw.py, clean_all.py)

Each raw-cleaning stage writes fixed file names (read off the save_path
variables in clean_raw.py); clean_all runs the stages in a fixed order.  We
model the data folder as an association list from path to the kind of table
last written there. -/

/-- The kind of table a stage writes to a file. -/
inductive TableKind where
  | circuitIdMap | results2001Tbl | results2018Tbl | practicesTbl
  | qualifyingTbl | startingGridTbl | pitStopsTbl
  | lapsAggregated | weatherFp3 | weatherQualifying | circuitFlagStats
deriving DecidableEq

/-- Files written by each raw-cleaning stage, with their table kinds; paths and
order of writes transcribed from clean_raw.py. -/
def stageWrites : CleanRawEntry → List (String × TableKind)
  | CleanRawEntry.idMap => [("data/raw/circuit_id_map.pkl", TableKind.circuitIdMap)]
  | CleanRawEntry.results2001 =>
      [("data/clean/race_results_clean_2001-2017.csv", TableKind.results2001Tbl)]
  | CleanRawEntry.results2018 =>
      [("data/clean/race_results_clean_2018+.csv", TableKind.results2018Tbl)]
  | CleanRawEntry.practices2018 =>
      [("data/clean/practice_results_clean.csv", TableKind.practicesTbl)]
  | CleanRawEntry.qualifying2018 =>
      [("data/clean/qualifying_results_clean.csv", TableKind.qualifyingTbl)]
  | CleanRawEntry.startingGrid2018 =>
      [("data/clean/starting_grid_clean.csv", TableKind.startingGridTbl)]
  | CleanRawEntry.pitStops2018 =>
      [("data/clean/pit_stops_clean.csv", TableKind.pitStopsTbl)]
  | CleanRawEntry.laps => [("data/clean/laps_clean.csv", TableKind.lapsAggregated)]
  | CleanRawEntry.weather =>
      [("data/clean/laps_clean.csv", TableKind.weatherFp3),
       ("data/clean/weather_qualifying_clean.csv", TableKind.weatherQualifying)]
  | CleanRawEntry.flags => [("data/clean/flags_clean.csv", TableKind.circuitFlagStats)]

/-- Order in which clean_all () runs the raw-cleaning stages. -/
def cleanAllStageOrder : List CleanRawEntry :=
  [CleanRawEntry.idMap, CleanRawEntry.results2001, CleanRawEntry.results2018,
   CleanRawEntry.practices2018, CleanRawEntry.qualifying2018,
   CleanRawEntry.startingGrid2018, CleanRawEntry.pitStops2018,
   CleanRawEntry.laps, CleanRawEntry.weather, CleanRawEntry.flags]

/-- Write one file into the store, overwriting any previous content at the
same path. -/
def setFile (st : List (String × TableKind)) (w : String × TableKind) :
    List (String × TableKind) :=
  w :: st.filter (fun x => !(x.1 == w.1))

/-- The file store after all raw-cleaning stages have run in order. -/
def finalStore : List (String × TableKind) :=
  ((cleanAllStageOrder.map stageWrites).flatten).foldl setFile []

/-- Content of a path in a file store. -/
def lookupFile (st : List (String × TableKind)) (name : String) :
    Option TableKind :=
  (st.find? (fun x => x.1 == name)).map (fun x => x.2)

/-! ### Historical feature engine: cumulative_races
(src/src/cleaning/clean_merged.py, clean_pre_qual lines 43-49 and clean_pre_race
lines 372-378)

The source concatenates both eras of race results, sorts by
(driver_id, year, round) and then computes

  all_races.groupby(driver_id).cumcount().shift(1).fillna(0)

Note that the shift is applied to the already-materialised cumcount Series,
OUTSIDE the groupby, so it is a global positional shift over the whole sorted
frame: only the very first row of the frame is NaN after the shift (and is the
only row filled with 0). -/

/-- One historical race-result row, keyed for the feature engine. -/
structure RaceRow where
  driverId : Nat
  year : Nat
  round : Nat
deriving DecidableEq, Repr

/-- Strict lexicographic order on (driver_id, year, round), the sort key used
by sort_values. -/
def rowLT (a b : RaceRow) : Bool :=
  a.driverId < b.driverId ||
    (a.driverId == b.driverId &&
      (a.year < b.year || (a.year == b.year && a.round < b.round)))

/-- Insert a row into an already sorted list. -/
def insertRow (r : RaceRow) : List RaceRow → List RaceRow
  | [] => [r]
  | x :: xs => if rowLT r x then r :: x :: xs else x :: insertRow r xs

/-- Sort rows by (driver_id, year, round), as sort_values does. -/
def sortRaces (rows : List RaceRow) : List RaceRow :=
  rows.foldr insertRow []

/-- Helper for cumcount: the accumulator holds the driver ids already seen. -/
def cumcountGo (seen : List Nat) : List RaceRow → List Nat
  | [] => []
  | r :: rs => seen.count r.driverId :: cumcountGo (r.driverId :: seen) rs

/-- groupby(driver_id).cumcount(): at each row, the number of earlier rows of
the same driver. -/
def cumcountBy (rows : List RaceRow) : List Nat :=
  cumcountGo [] rows

/-- Series.shift(1).fillna(0) applied to the whole column: every value moves
down one position globally and the first position becomes 0. -/
def shiftFill : List Nat → List Nat
  | [] => []
  | xs => 0 :: xs.dropLast

/-- The cumulative_races column exactly as clean_pre_qual and clean_pre_race
compute it: sort, per-driver cumcount, then a GLOBAL shift by one with the
single resulting hole filled by 0. -/
def cumulative_races (rows : List RaceRow) : List Nat :=
  shiftFill (cumcountBy (sortRaces rows))

/-- The cumulative_races values belonging to one driver, in chronological
order (the sorted frame zipped with the column, filtered to the driver). -/
def cumulativeRacesFor (d : Nat) (rows : List RaceRow) : List Nat :=
  (((sortRaces rows).zip (cumulative_races rows)).filter
    (fun p => p.1.driverId == d)).map (fun p => p.2)

/-- Driver ids present in a row list. -/
def driverIds (rows : List RaceRow) : List Nat :=
  (rows.map (fun r => r.driverId)).dedup

/-- The property claimed for cumulative_races: for every driver in the data,
the chronological sequence of values is 0, 1, 2, ...: the value at each race is
the number of that driver's strictly prior races, hence 0 at the first race and
increasing by exactly one per race. -/
def cumulativeRacesClaim (rows : List RaceRow) : Prop :=
  ∀ d ∈ driverIds rows,
    cumulativeRacesFor d rows = List.range (cumulativeRacesFor d rows).length

instance (rows : List RaceRow) : Decidable (cumulativeRacesClaim rows) :=
  List.decidableBAll _ _

/-- A four-row input: driver 1 with two races, then driver 2 with two races,
already in chronological order. -/
def cumulativeFailingInput : List RaceRow :=
  [⟨1, 2020, 1⟩, ⟨1, 2020, 2⟩, ⟨2, 2020, 1⟩, ⟨2, 2020, 2⟩]

/-! ### Circuit flag features (src/src/cleaning/clean_raw.py, clean_flags)

For every (circuit, race) pair the source computes flag probabilities and
averages over the races previously held at that circuit (race_id strictly
smaller), Laplace-smoothed with k = 1; a circuit with no prior race gets None
and is later filled from global statistics computed over the WHOLE flag table
(lines 762-780), i.e. over all races including later ones.  We embed the
yellow-flag probability and the average yellow count; the other flag columns
are computed by the identical scheme. -/

/-- One race of the flag table, already merged with its circuit id. -/
structure FlagRecord where
  raceId : Nat
  circuitId : Nat
  yellowCount : Nat
deriving DecidableEq, Repr

/-- Races previously held at this circuit: same circuit, strictly smaller
race_id. -/
def flagHistory (fs : List FlagRecord) (c r : Nat) : List FlagRecord :=
  fs.filter (fun x => x.circuitId == c && decide (x.raceId < r))

/-- Smoothed per-circuit yellow-flag probability, None for the first race ever
held at the circuit (k = 1 Bayesian smoothing, as in the source). -/
def yellowFlagProbOpt (fs : List FlagRecord) (c r : Nat) : Option ℚ :=
  let hist := flagHistory fs c r
  if hist.length = 0 then none
  else some ((hist.countP (fun x => decide (0 < x.yellowCount)) + 1 : ℚ) /
             (hist.length + 2))

/-- Per-circuit average yellow-flag count over prior races, None for the first
race at the circuit. -/
def avgYellowCountOpt (fs : List FlagRecord) (c r : Nat) : Option ℚ :=
  let hist := flagHistory fs c r
  if hist.length = 0 then none
  else some (((hist.map (fun x => (x.yellowCount : ℚ))).sum) / hist.length)

/-- Global yellow-flag probability: fraction of ALL races in the table with a
yellow flag ((flags_sorted.flag_yellow_count > 0).mean()). -/
def globalYellowProb (fs : List FlagRecord) : ℚ :=
  (fs.countP (fun x => decide (0 < x.yellowCount)) : ℚ) / fs.length

/-- Global average yellow-flag count over ALL races in the table. -/
def globalAvgYellow (fs : List FlagRecord) : ℚ :=
  ((fs.map (fun x => (x.yellowCount : ℚ))).sum) / fs.length

/-- Final yellow_flag_prob column value for race r at circuit c: the
per-circuit historical value, with the global statistic substituted via fillna
for a first race at a circuit. -/
def yellow_flag_prob (fs : List FlagRecord) (c r : Nat) : ℚ :=
  (yellowFlagProbOpt fs c r).getD (globalYellowProb fs)

/-- Final avg_yellow_count column value for race r at circuit c. -/
def avg_yellow_count (fs : List FlagRecord) (c r : Nat) : ℚ :=
  (avgYellowCountOpt fs c r).getD (globalAvgYellow fs)

/-- Splitting a conjunctive filter into two successive filters. -/
theorem filter_and_split (p q : FlagRecord → Bool) (l : List FlagRecord) :
    l.filter (fun x => p x && q x) = (l.filter q).filter p := by
  rw [List.filter_filter]

/-- C2.  Code bug: the cumulative_races column is computed with a global
(not per-driver) shift.  On a four-row input (driver 1 with two races, then
driver 2 with two races) the column comes out as 0, 0, 1, 0: driver 2 starts at
1 instead of 0 and then decreases to 0, and driver 1 never increments, so the
claimed strictly-prior-race count / +1 monotonicity fails for every driver. -/
theorem cumulative_races_global_shift_bug :
    cumulative_races cumulativeFailingInput = [0, 0, 1, 0] ∧
    cumulativeRacesFor 2 cumulativeFailingInput = [1, 0] ∧
    cumulativeRacesFor 1 cumulativeFailingInput = [0, 0] ∧
    ¬ cumulativeRacesClaim cumulativeFailingInput := by
  refine ⟨by decide, by decide, by decide, by decide⟩

/-- C1 counterexample.  Two flag tables agree on every race with race_id < 2
and differ only in the yellow-flag count of race 2, yet the yellow_flag_prob
feature of the strictly earlier race 1 changes: race 1 is the first race at its
circuit, so it is imputed from the global statistic, which is computed over the
whole table including race 2. -/
theorem flag_global_fallback_leaks :
    ([⟨1, 1, 0⟩, ⟨2, 1, 3⟩] : List FlagRecord).filter
        (fun x => decide (x.raceId < 2)) =
      ([⟨1, 1, 0⟩, ⟨2, 1, 0⟩] : List FlagRecord).filter
        (fun x => decide (x.raceId < 2)) ∧
    yellow_flag_prob [⟨1, 1, 0⟩, ⟨2, 1, 3⟩] 1 1 ≠
      yellow_flag_prob [⟨1, 1, 0⟩, ⟨2, 1, 0⟩] 1 1 := by
  refine ⟨by decide, ?_⟩
  norm_num [yellow_flag_prob, yellowFlagProbOpt, flagHistory, globalYellowProb,
    List.filter_cons, List.countP_cons, List.countP_nil, List.filter_nil]

/-- Helper for the flag-feature family: for every row that is not the first
race at its circuit (the per-circuit history is nonempty), the flag features
depend only on races with strictly smaller race_id: any mutation of races at
or after the current one (formalised as agreement of the two tables on all
records with smaller race_id) leaves yellow_flag_prob and avg_yellow_count
unchanged. -/
theorem flag_features_agree_of_history (fs gs : List FlagRecord)
    (c r : Nat)
    (hagree : fs.filter (fun x => decide (x.raceId < r)) =
      gs.filter (fun x => decide (x.raceId < r)))
    (hhist : flagHistory fs c r ≠ []) :
    yellow_flag_prob fs c r = yellow_flag_prob gs c r ∧
    avg_yellow_count fs c r = avg_yellow_count gs c r := by
  have hEq : flagHistory fs c r = flagHistory gs c r := by
    rw [flagHistory, flagHistory,
      filter_and_split (fun x => x.circuitId == c)
        (fun x => decide (x.raceId < r)) fs,
      filter_and_split (fun x => x.circuitId == c)
        (fun x => decide (x.raceId < r)) gs,
      hagree]
  have hlen : (flagHistory fs c r).length ≠ 0 := by
    intro h
    exact hhist (List.length_eq_zero.mp h)
  constructor
  · rw [yellow_flag_prob, yellow_flag_prob, yellowFlagProbOpt,
      yellowFlagProbOpt, ← hEq, if_neg hlen, Option.getD_some, Option.getD_some]
  · rw [avg_yellow_count, avg_yellow_count, avgYellowCountOpt,
      avgYellowCountOpt, ← hEq, if_neg hlen, Option.getD_some, Option.getD_some]

/-- C8 counterexample.  A file that exists at the path but holds corrupt
content makes load_id_map raise the unpickling error instead of returning an
empty map: the cold-start fallback only covers a missing file. -/
theorem load_id_map_corrupt_raises :
    load_id_map (some FileContent.corrupt) none =
      Except.error "UnpicklingError" := rfl

/-- C8 (amended).  load_id_map returns the empty map (or the caller-supplied
default) exactly when no file exists at the path; a file that exists is always
handed to pickle.load, so a valid pickle returns its stored map and corrupt
content propagates the unpickling error. -/
theorem load_id_map_cold_start (d : Option IdMap) (m : IdMap) :
    load_id_map none d = Except.ok (d.getD []) ∧
    load_id_map (some (FileContent.pickled m)) d = Except.ok m ∧
    load_id_map (some FileContent.corrupt) d =
      Except.error "UnpicklingError" :=
  ⟨rfl, rfl, rfl⟩

/-- C9.  The clean_raw module requests impute_pit_times from
project_functions, which binds no such name, so importing the module fails
with an ImportError, and every cleaning entry point (including the pit-stop
cleaning that would apply the imputation) propagates that error instead of
producing its table. -/
theorem import_clean_raw_fails :
    importCleanRaw =
      Except.error "ImportError: cannot import name impute_pit_times" ∧
    ∀ e : CleanRawEntry, invokeCleanRawEntry e =
      Except.error "ImportError: cannot import name impute_pit_times" := by
  refine ⟨rfl, fun e => ?_⟩
  cases e <;> rfl

/-- C10.  clean_weather saves its practice-weather table to the very path that
clean_laps used for the aggregated laps table, and clean_all runs clean_laps
first: after the full stage sequence the laps file holds the FP3-fallback
weather table, the aggregated laps table survives under no path, the weather
table is stored nowhere but the laps path, and only the qualifying weather
gets its own file. -/
theorem weather_overwrites_laps_file :
    lookupFile finalStore "data/clean/laps_clean.csv" =
      some TableKind.weatherFp3 ∧
    lookupFile finalStore "data/clean/weather_qualifying_clean.csv" =
      some TableKind.weatherQualifying ∧
    finalStore.all (fun x => !(x.2 == TableKind.lapsAggregated)) = true ∧
    finalStore.all (fun x =>
      !(x.2 == TableKind.weatherFp3) ||
        (x.1 == "data/clean/laps_clean.csv")) = true := by
  refine ⟨by decide, by decide, by decide, by decide⟩

/-! ### Qualifying-time cleaning and imputation
(src/src/utils/project_functions.py, clean_qualifying_times, lines 841-903)

The source parses each q1/q2/q3 cell (DNF, DNS, empty and NaN become missing;
"min:sec" and plain-seconds strings become seconds), flags sessions without a
lap time, computes the per-race maximum of each session column, and imputes:
missing Q1 as race max Q1 + 5; missing Q2/Q3 as race max + 5 for drivers whose
qualifying position is within the advancement cutoff for that session (top 15
for Q2, top 10 for Q3) and race max + 10 for drivers outside it. -/

/-- A raw qualifying-time cell as scraped. -/
inductive RawTime where
  | blank
  | dnf
  | dns
  | minSec (m : Nat) (s : ℚ)
  | secs (s : ℚ)
deriving DecidableEq

/-- Parsing of a raw time cell: DNF/DNS/empty are missing; "min:sec" becomes
60 * min + sec; a plain number is already seconds. -/
def parseTime : RawTime → Option ℚ
  | RawTime.blank => none
  | RawTime.dnf => none
  | RawTime.dns => none
  | RawTime.minSec m s => some (60 * m + s)
  | RawTime.secs s => some s

/-- One row of the qualifying table entering clean_qualifying_times (the
positions have already been backfilled to integers by clean_qualifying_2018).
-/
structure QualRow where
  raceId : Nat
  driverId : Nat
  q1 : RawTime
  q2 : RawTime
  q3 : RawTime
  qualPos : Nat
deriving DecidableEq

/-- One output row: cleaned times in seconds and the no-lap-time flags. -/
structure QualOut where
  q1 : Option ℚ
  q2 : Option ℚ
  q3 : Option ℚ
  flag1 : Bool
  flag2 : Bool
  flag3 : Bool
deriving DecidableEq

/-- Per-race maximum of the parsed Q1 column (groupby(race_id).transform(max),
which skips missing values and is None when the whole race is missing). -/
def raceQ1Max (rows : List QualRow) (race : Nat) : Option ℚ :=
  ((rows.filter (fun x => x.raceId == race)).filterMap
    (fun x => parseTime x.q1)).max?

/-- Per-race maximum of the parsed Q2 column. -/
def raceQ2Max (rows : List QualRow) (race : Nat) : Option ℚ :=
  ((rows.filter (fun x => x.raceId == race)).filterMap
    (fun x => parseTime x.q2)).max?

/-- Per-race maximum of the parsed Q3 column. -/
def raceQ3Max (rows : List QualRow) (race : Nat) : Option ℚ :=
  ((rows.filter (fun x => x.raceId == race)).filterMap
    (fun x => parseTime x.q3)).max?

/-- Embedding of clean_qualifying_times.  Flags record which sessions had no
parsed time (gated by the advancement cutoff for Q2/Q3); imputation adds 5
seconds to the race maximum for missing Q1, and for missing Q2/Q3 adds 5
seconds when the driver advanced to that session (top 15 / top 10) and 10
seconds otherwise.  When a whole race-session column is missing its maximum is
missing and the cell stays missing, as NaN + 5 stays NaN. -/
def clean_qualifying_times (rows : List QualRow) : List QualOut :=
  rows.map (fun r =>
    let t1 := parseTime r.q1
    let t2 := parseTime r.q2
    let t3 := parseTime r.q3
    let adv2 : Bool := decide (r.qualPos ≤ 15)
    let adv3 : Bool := decide (r.qualPos ≤ 10)
    { q1 := match t1 with
        | some t => some t
        | none => (raceQ1Max rows r.raceId).map (fun m => m + 5)
      q2 := match t2 with
        | some t => some t
        | none => (raceQ2Max rows r.raceId).map
            (fun m => if r.qualPos ≤ 15 then m + 5 else m + 10)
      q3 := match t3 with
        | some t => some t
        | none => (raceQ3Max rows r.raceId).map
            (fun m => if r.qualPos ≤ 10 then m + 5 else m + 10)
      flag1 := t1.isNone
      flag2 := adv2 && t2.isNone
      flag3 := adv3 && t3.isNone })

/-- A one-race qualifying table in which the driver in qualifying position 2
(hence inside the top-15 Q2 cutoff) has no Q2 time, and the race maximum Q2
time is 90 seconds. -/
def qualCounterexampleRows : List QualRow :=
  [⟨1, 10, RawTime.secs 80, RawTime.secs 90, RawTime.blank, 1⟩,
   ⟨1, 11, RawTime.secs 82, RawTime.blank, RawTime.blank, 2⟩]

/-- The three-driver race of the specification scenario: drivers A and B with
Q1 times 80 and 82 seconds and driver C with no Q1 time. -/
def qualScenarioRows : List QualRow :=
  [⟨2, 1, RawTime.secs 80, RawTime.blank, RawTime.blank, 1⟩,
   ⟨2, 2, RawTime.secs 82, RawTime.blank, RawTime.blank, 2⟩,
   ⟨2, 3, RawTime.blank, RawTime.blank, RawTime.blank, 3⟩]

/-- C3 counterexample.  In a race whose maximum Q2 time is 90 seconds, the
driver in qualifying position 2 with a missing Q2 time is imputed 95 = 90 + 5
seconds, because the source adds only 5 seconds for drivers inside the top-15
advancement cutoff; the claim would require 90 + 10 = 100. -/
theorem qual_q2_advanced_gets_plus5 :
    (clean_qualifying_times qualCounterexampleRows).map (fun o => o.q2) =
      [some 90, some 95] ∧
    raceQ2Max qualCounterexampleRows 1 = some 90 ∧
    (95 : ℚ) ≠ 90 + 10 := by
  refine ⟨?_, ?_, by norm_num⟩
  · norm_num [clean_qualifying_times, parseTime, raceQ2Max,
      qualCounterexampleRows, List.filter_cons, List.filterMap, List.max?]
  · norm_num [raceQ2Max, parseTime, qualCounterexampleRows, List.filter_cons,
      List.filterMap, List.max?]

/-- C3 (amended).  Per race: a missing Q1 time is imputed as the race maximum
Q1 time + 5 seconds with the no-lap-time flag set; a missing Q2 (resp. Q3)
time is imputed as the race maximum + 5 when the driver is inside the top-15
(resp. top-10) advancement cutoff and + 10 otherwise; present times pass
through; and in the specification scenario driver C receives 82 + 5 = 87 with
q1_no_lap_time_flag true. -/
theorem qual_imputation_rules :
    (∀ (rows : List QualRow) (i : Nat) (row : QualRow),
      rows[i]? = some row →
      ∃ o, (clean_qualifying_times rows)[i]? = some o ∧
        o.flag1 = (parseTime row.q1).isNone ∧
        o.flag2 = (decide (row.qualPos ≤ 15) && (parseTime row.q2).isNone) ∧
        o.flag3 = (decide (row.qualPos ≤ 10) && (parseTime row.q3).isNone) ∧
        (∀ t, parseTime row.q1 = some t → o.q1 = some t) ∧
        (parseTime row.q1 = none →
          o.q1 = (raceQ1Max rows row.raceId).map (fun m => m + 5)) ∧
        (∀ t, parseTime row.q2 = some t → o.q2 = some t) ∧
        (parseTime row.q2 = none →
          o.q2 = (raceQ2Max rows row.raceId).map
            (fun m => if row.qualPos ≤ 15 then m + 5 else m + 10)) ∧
        (∀ t, parseTime row.q3 = some t → o.q3 = some t) ∧
        (parseTime row.q3 = none →
          o.q3 = (raceQ3Max rows row.raceId).map
            (fun m => if row.qualPos ≤ 10 then m + 5 else m + 10))) ∧
    (clean_qualifying_times qualScenarioRows).map (fun o => (o.q1, o.flag1)) =
      [(some 80, false), (some 82, false), (some 87, true)] := by
  constructor
  · intro rows i row h
    refine ⟨_, by rw [clean_qualifying_times, List.getElem?_map, h]; rfl,
      rfl, rfl, rfl, ?_, ?_, ?_, ?_, ?_, ?_⟩ <;>
      cases h1 : parseTime row.q1 <;> cases h2 : parseTime row.q2 <;>
        cases h3 : parseTime row.q3 <;> simp [h1, h2, h3]
  · norm_num [clean_qualifying_times, parseTime, raceQ1Max, qualScenarioRows,
      List.filter_cons, List.filterMap, List.max?]

/-- C3 witness: the imputation-rule theorem applied to the scenario race, at
driver C (index 2), whose Q1 cell is missing. -/
theorem qual_imputation_rules_witness :
    qualScenarioRows[2]? =
      some (⟨2, 3, RawTime.blank, RawTime.blank, RawTime.blank, 3⟩ : QualRow) ∧
    ∃ o, (clean_qualifying_times qualScenarioRows)[2]? = some o ∧
      o.flag1 = (parseTime RawTime.blank).isNone := by
  refine ⟨by decide, ?_⟩
  obtain ⟨o, h1, h2, -⟩ := qual_imputation_rules.1 qualScenarioRows 2
    ⟨2, 3, RawTime.blank, RawTime.blank, RawTime.blank, 3⟩ (by decide)
  exact ⟨o, h1, h2⟩

/-! ### Pit-stop average imputation chain
(src/src/cleaning/clean_merged.py, clean_pre_qual lines 168-185 and
clean_pre_race lines 498-515)

For each of avg_pit_time_last_5 / avg_pit_time_last_10 the source runs four
fillna passes over the column, in order: the (team_id, race_id) group mean,
the team_id group mean, the race_id group mean, and finally the overall column
mean — each pass recomputing its group means on the column as left by the
previous pass and touching only values still null. -/

/-- One row of the merged table, restricted to the fields the pit imputation
reads: team, race, and one pit-average column value. -/
structure PitRow where
  teamId : Nat
  raceId : Nat
  val : Option ℚ
deriving DecidableEq

/-- Mean of a list of rationals, None when the list is empty (a pandas group
mean over only-null values is NaN). -/
def meanOpt (xs : List ℚ) : Option ℚ :=
  if xs.length = 0 then none else some (xs.sum / xs.length)

/-- One fillna pass: every row whose value is null receives the fill value
computed for that row; present values are untouched. -/
def fillWith (rows : List PitRow) (m : PitRow → Option ℚ) : List PitRow :=
  rows.map (fun r =>
    { r with val := match r.val with
        | some v => some v
        | none => m r })

/-- Pass 1: fillna with the same-race teammate mean
(groupby([team_id, race_id]).transform(mean)). -/
def fillTeamRaceAvg (rows : List PitRow) : List PitRow :=
  fillWith rows (fun r => meanOpt
    ((rows.filter (fun x => x.teamId == r.teamId && x.raceId == r.raceId)).filterMap
      (fun x => x.val)))

/-- Pass 2: fillna with the team's historical mean
(groupby(team_id).transform(mean)). -/
def fillTeamHistAvg (rows : List PitRow) : List PitRow :=
  fillWith rows (fun r => meanOpt
    ((rows.filter (fun x => x.teamId == r.teamId)).filterMap (fun x => x.val)))

/-- Pass 3: fillna with the race-wide mean
(groupby(race_id).transform(mean)). -/
def fillRaceAvg (rows : List PitRow) : List PitRow :=
  fillWith rows (fun r => meanOpt
    ((rows.filter (fun x => x.raceId == r.raceId)).filterMap (fun x => x.val)))

/-- Pass 4: fillna with the overall column mean. -/
def fillGlobalMean (rows : List PitRow) : List PitRow :=
  fillWith rows (fun _ => meanOpt (rows.filterMap (fun x => x.val)))

/-- The first three fallback levels, in source order. -/
def pitFallback123 (rows : List PitRow) : List PitRow :=
  fillRaceAvg (fillTeamHistAvg (fillTeamRaceAvg rows))

/-- The whole four-level imputation of one pit-average column. -/
def imputePitAverages (rows : List PitRow) : List PitRow :=
  fillGlobalMean (pitFallback123 rows)

/-- The value of the pit-average column at row index i. -/
def pitValAt (rows : List PitRow) (i : Nat) : Option (Option ℚ) :=
  rows[i]?.map (fun r => r.val)

/-- A fillna pass never changes a present value. -/
theorem fillWith_some (rows : List PitRow) (m : PitRow → Option ℚ) (i : Nat)
    (v : ℚ) (h : pitValAt rows i = some (some v)) :
    pitValAt (fillWith rows m) i = some (some v) := by
  unfold pitValAt at h ⊢
  unfold fillWith
  rw [List.getElem?_map]
  cases hr : rows[i]? with
  | none => rw [hr] at h; cases h
  | some r =>
      rw [hr] at h
      simp only [Option.map_some'] at h ⊢
      have hv : r.val = some v := by simpa using h
      simp [hv]

/-- A fillna pass with a row-independent fill value replaces every null with
exactly that value. -/
theorem fillWith_const_none (rows : List PitRow) (g : Option ℚ) (i : Nat)
    (h : pitValAt rows i = some none) :
    pitValAt (fillWith rows (fun _ => g)) i = some g := by
  unfold pitValAt at h ⊢
  unfold fillWith
  rw [List.getElem?_map]
  cases hr : rows[i]? with
  | none => rw [hr] at h; cases h
  | some r =>
      rw [hr] at h
      simp only [Option.map_some'] at h ⊢
      have hv : r.val = none := by simpa using h
      simp [hv]

/-- The table of the fallback-order scenario: the row of team 1 in race 1 has
a null value and no teammate, no team history and no race companion, while
team 2 in race 2 contributes the only present values 10 and 20. -/
def pitScenarioRows : List PitRow :=
  [⟨1, 1, none⟩, ⟨2, 2, some 10⟩, ⟨2, 2, some 20⟩]

/-- C4.  The pit-average imputation applies, in order, same-race teammate
mean, team historical mean, race-wide mean and global column mean; every pass
leaves present values unchanged; a row still null after the first three
levels receives exactly the global column mean; and in the scenario table the
fully isolated null row receives the global mean 15 of the two present
values. -/
theorem pit_fallback_order :
    (∀ (rows : List PitRow) (i : Nat) (v : ℚ),
      pitValAt rows i = some (some v) →
      pitValAt (imputePitAverages rows) i = some (some v)) ∧
    (∀ (rows : List PitRow) (i : Nat),
      pitValAt (pitFallback123 rows) i = some none →
      pitValAt (imputePitAverages rows) i =
        some (meanOpt ((pitFallback123 rows).filterMap (fun r => r.val)))) ∧
    pitValAt (pitFallback123 pitScenarioRows) 0 = some none ∧
    (imputePitAverages pitScenarioRows).map (fun r => r.val) =
      [some 15, some 10, some 20] := by
  refine ⟨?_, ?_, ?_, ?_⟩
  · intro rows i v h
    exact fillWith_some _ _ _ _
      (fillWith_some _ _ _ _ (fillWith_some _ _ _ _ (fillWith_some _ _ _ _ h)))
  · intro rows i h
    exact fillWith_const_none _ _ _ h
  · decide
  · norm_num [imputePitAverages, pitFallback123, fillGlobalMean, fillRaceAvg,
      fillTeamHistAvg, fillTeamRaceAvg, fillWith, meanOpt, pitScenarioRows,
      List.filter_cons, List.filterMap]

/-- C4 witness: the fallback-order theorem applied to the scenario table at
the isolated null row, which is still null after levels 1-3 and receives the
global column mean. -/
theorem pit_fallback_order_witness :
    pitValAt (pitFallback123 pitScenarioRows) 0 = some none ∧
    pitValAt (imputePitAverages pitScenarioRows) 0 =
      some (meanOpt ((pitFallback123 pitScenarioRows).filterMap
        (fun r => r.val))) := by
  have h : pitValAt (pitFallback123 pitScenarioRows) 0 = some none := by decide
  exact ⟨h, pit_fallback_order.2.1 pitScenarioRows 0 h⟩

/-! ### Older-era (2001-2017) result reconciliation
(src/src/cleaning/clean_raw.py, clean_results_2001, lines 84-100, and
src/src/utils/project_functions.py, convert_position, lines 823-834)

The raw position column is free text; after sorting by (year, date) the source
initialises position_status to CLAS, overwrites it with the raw text wherever
int(position) fails, replaces EX by DQ, and then rebuilds the numeric position
with convert_position, carrying the previously assigned position across the
whole sorted frame. -/

/-- A raw position cell: either text parseable as an integer, or free text
(the finish reason). -/
inductive PosCell where
  | numeric (n : Nat)
  | text (s : String)
deriving DecidableEq

/-- The position_status column: CLAS for numeric cells, the raw text verbatim
for non-numeric cells, then the replacement of EX by DQ. -/
def statusColumn (cells : List PosCell) : List String :=
  (cells.map (fun c => match c with
    | PosCell.numeric _ => "CLAS"
    | PosCell.text s => s)).map (fun s => if s = "EX" then "DQ" else s)

/-- Embedding of convert_position: a parseable cell returns its integer;
otherwise the previously assigned position + 1, or 1 when there is no
previous row. -/
def convert_position (c : PosCell) (prev : Option Nat) : Nat :=
  match c with
  | PosCell.numeric n => n
  | PosCell.text _ =>
      match prev with
      | some p => p + 1
      | none => 1

/-- The loop of clean_results_2001: fold convert_position over the sorted
rows, feeding each assigned position back as prev_pos. -/
def convertPositionsGo (prev : Option Nat) : List PosCell → List Nat
  | [] => []
  | c :: rest =>
      convert_position c prev ::
        convertPositionsGo (some (convert_position c prev)) rest

/-- The rebuilt numeric position column (prev_pos starts as None). -/
def convertedPositions (cells : List PosCell) : List Nat :=
  convertPositionsGo none cells

/-- Positions of numeric cells are their own integers, whatever prev is. -/
theorem convertPositionsGo_numeric (cells : List PosCell) :
    ∀ (prev : Option Nat) (i n : Nat), cells[i]? = some (PosCell.numeric n) →
      (convertPositionsGo prev cells)[i]? = some n := by
  induction cells with
  | nil => intro prev i n h; cases h
  | cons c rest ih =>
      intro prev i n h
      cases i with
      | zero =>
          simp only [List.getElem?_cons_zero, Option.some.injEq] at h
          subst h
          simp [convertPositionsGo, convert_position]
      | succ k =>
          simp only [List.getElem?_cons_succ] at h
          simp only [convertPositionsGo, List.getElem?_cons_succ]
          exact ih _ k n h

/-- A non-numeric cell that has a previous row is assigned the previous
assigned position + 1. -/
theorem convertPositionsGo_text_succ (cells : List PosCell) :
    ∀ (prev : Option Nat) (j : Nat) (s : String),
      cells[j + 1]? = some (PosCell.text s) →
      ∃ p, (convertPositionsGo prev cells)[j]? = some p ∧
        (convertPositionsGo prev cells)[j + 1]? = some (p + 1) := by
  induction cells with
  | nil => intro prev j s h; cases h
  | cons c rest ih =>
      intro prev j s h
      simp only [List.getElem?_cons_succ] at h
      cases j with
      | zero =>
          cases rest with
          | nil => cases h
          | cons r rest2 =>
              simp only [List.getElem?_cons_zero, Option.some.injEq] at h
              subst h
              refine ⟨convert_position c prev, ?_, ?_⟩
              · simp [convertPositionsGo]
              · simp [convertPositionsGo, convert_position]
      | succ k =>
          obtain ⟨p, h1, h2⟩ := ih (some (convert_position c prev)) k s h
          refine ⟨p, ?_, ?_⟩
          · simp only [convertPositionsGo, List.getElem?_cons_succ]
            exact h1
          · simp only [convertPositionsGo, List.getElem?_cons_succ]
            exact h2

/-- C5 counterexample.  A non-numeric position text other than DNF, NC, EX
(here WD, a withdrawal) is carried through verbatim as the position status: it
does not default to Classified. -/
theorem status_other_text_not_classified :
    statusColumn [PosCell.text "WD"] = ["WD"] ∧ "WD" ≠ "CLAS" := by
  exact ⟨rfl, by decide⟩

/-- C5 (amended).  In the older-era reconciliation, numeric position text
yields status CLAS and the parsed integer; non-numeric text yields itself as
the status except EX which becomes DQ (it is NOT defaulted to Classified);
the assigned position of a non-numeric row is the previous row's assigned
position + 1, with a non-numeric very first row seeded at 1; in particular a
DNF row after a winner gets status DNF and position 2. -/
theorem older_era_reconciliation :
    (∀ (cells : List PosCell) (i n : Nat),
      cells[i]? = some (PosCell.numeric n) →
      (statusColumn cells)[i]? = some "CLAS" ∧
      (convertedPositions cells)[i]? = some n) ∧
    (∀ (cells : List PosCell) (i : Nat) (s : String),
      cells[i]? = some (PosCell.text s) →
      (statusColumn cells)[i]? = some (if s = "EX" then "DQ" else s)) ∧
    (∀ (s : String) (rest : List PosCell),
      (convertedPositions (PosCell.text s :: rest))[0]? = some 1) ∧
    (∀ (cells : List PosCell) (j : Nat) (s : String),
      cells[j + 1]? = some (PosCell.text s) →
      ∃ p, (convertedPositions cells)[j]? = some p ∧
        (convertedPositions cells)[j + 1]? = some (p + 1)) ∧
    statusColumn [PosCell.numeric 1, PosCell.text "DNF"] = ["CLAS", "DNF"] ∧
    convertedPositions [PosCell.numeric 1, PosCell.text "DNF"] = [1, 2] := by
  refine ⟨?_, ?_, ?_, ?_, by decide, by decide⟩
  · intro cells i n h
    constructor
    · rw [statusColumn, List.getElem?_map, List.getElem?_map, h]
      rfl
    · exact convertPositionsGo_numeric cells none i n h
  · intro cells i s h
    rw [statusColumn, List.getElem?_map, List.getElem?_map, h]
    rfl
  · intro s rest
    simp [convertedPositions, convertPositionsGo, convert_position]
  · intro cells j s h
    exact convertPositionsGo_text_succ cells none j s h

/-- C5 witness: the reconciliation theorem applied to the two-row scenario, at
the DNF row following the race winner. -/
theorem older_era_reconciliation_witness :
    ([PosCell.numeric 1, PosCell.text "DNF"] : List PosCell)[1]? =
      some (PosCell.text "DNF") ∧
    ∃ p, (convertedPositions [PosCell.numeric 1, PosCell.text "DNF"])[0]? =
        some p ∧
      (convertedPositions [PosCell.numeric 1, PosCell.text "DNF"])[1]? =
        some (p + 1) := by
  refine ⟨by decide, ?_⟩
  exact older_era_reconciliation.2.2.2.1
    [PosCell.numeric 1, PosCell.text "DNF"] 0 "DNF" (by decide)

/-! ### Start-position backfill
(src/src/cleaning/clean_merged.py, clean_pre_race, lines 557-573)

Within each race group the source takes the maximum known start_position and
assigns the missing ones sequentially max + 1, max + 2, ... in original row
order; when the whole race's grid is missing it assigns 1, 2, ... instead.
Both branches coincide with a running assignment m + 1, m + 2, ... where m is
the maximum known value, taken as 0 for an all-missing race. -/

/-- Maximum known start position of a race group, 0 when all missing. -/
def maxKnown (g : List (Option Nat)) : Nat :=
  (g.filterMap id).foldr max 0

/-- The assignment loop: known values pass through, each missing value gets
m + c for the running counter c, which then advances. -/
def backfillGo (m c : Nat) : List (Option Nat) → List Nat
  | [] => []
  | some v :: rest => v :: backfillGo m c rest
  | none :: rest => (m + c) :: backfillGo m (c + 1) rest

/-- Start-position backfill of one race group. -/
def backfillStartPositions (g : List (Option Nat)) : List Nat :=
  backfillGo (maxKnown g) 1 g

/-- Known start positions are passed through unchanged by the loop. -/
theorem backfillGo_known (g : List (Option Nat)) :
    ∀ (m c i v : Nat), g[i]? = some (some v) →
      (backfillGo m c g)[i]? = some v := by
  induction g with
  | nil => intro m c i v h; cases h
  | cons o rest ih =>
      intro m c i v h
      cases i with
      | zero =>
          simp only [List.getElem?_cons_zero, Option.some.injEq] at h
          subst h
          simp [backfillGo]
      | succ k =>
          simp only [List.getElem?_cons_succ] at h
          cases o with
          | some w => simpa [backfillGo] using ih m c k v h
          | none => simpa [backfillGo] using ih m (c + 1) k v h

/-- A missing start position at index i receives m + c plus the number of
missing cells strictly before it. -/
theorem backfillGo_missing (g : List (Option Nat)) :
    ∀ (m c i : Nat), g[i]? = some none →
      (backfillGo m c g)[i]? =
        some (m + c + (g.take i).countP (fun o => o.isNone)) := by
  induction g with
  | nil => intro m c i h; cases h
  | cons o rest ih =>
      intro m c i h
      cases i with
      | zero =>
          simp only [List.getElem?_cons_zero, Option.some.injEq] at h
          subst h
          simp [backfillGo]
      | succ k =>
          simp only [List.getElem?_cons_succ] at h
          cases o with
          | some w =>
              rw [show backfillGo m c (some w :: rest) = w :: backfillGo m c rest from rfl]
              simp only [List.getElem?_cons_succ, List.take_succ_cons,
                List.countP_cons]
              rw [ih m c k h]
              simp
          | none =>
              rw [show backfillGo m c (none :: rest) =
                (m + c) :: backfillGo m (c + 1) rest from rfl]
              simp only [List.getElem?_cons_succ, List.take_succ_cons,
                List.countP_cons]
              rw [ih m (c + 1) k h]
              simp only [Option.some.injEq]
              simp [Option.isNone]
              omega

/-- C7.  Within a race group, known start positions pass through; the missing
ones are assigned sequentially starting at the maximum known start position
+ 1 in original row order (with the maximum taken as 0 when the entire grid is
missing, so an all-missing race gets 1, 2, ...); in particular a five-entry
race with known maximum 3 and nulls at indices 1 and 3 assigns them 4 and 5.
-/
theorem grid_backfill :
    (∀ (g : List (Option Nat)) (i v : Nat), g[i]? = some (some v) →
      (backfillStartPositions g)[i]? = some v) ∧
    (∀ (g : List (Option Nat)) (i : Nat), g[i]? = some none →
      (backfillStartPositions g)[i]? =
        some (maxKnown g + 1 + (g.take i).countP (fun o => o.isNone))) ∧
    backfillStartPositions [some 1, none, some 3, none, some 2] =
      [1, 4, 3, 5, 2] ∧
    backfillStartPositions [none, none, none] = [1, 2, 3] := by
  refine ⟨?_, ?_, by decide, by decide⟩
  · intro g i v h
    exact backfillGo_known g (maxKnown g) 1 i v h
  · intro g i h
    exact backfillGo_missing g (maxKnown g) 1 i h

/-- C7 witness: the backfill theorem applied to the five-entry scenario race
at its second missing cell (index 3), which receives 3 + 1 + 1 = 5. -/
theorem grid_backfill_witness :
    ([some 1, none, some 3, none, some 2] : List (Option Nat))[3]? =
      some none ∧
    (backfillStartPositions [some 1, none, some 3, none, some 2])[3]? =
      some (maxKnown [some 1, none, some 3, none, some 2] + 1 +
        (([some 1, none, some 3, none, some 2] : List (Option Nat)).take 3).countP
          (fun o => o.isNone)) :=
  ⟨by decide, grid_backfill.2.1 [some 1, none, some 3, none, some 2] 3
    (by decide)⟩

/-! ### Newer-era (2018+) result reconciliation
(src/src/cleaning/clean_raw.py, clean_results_2018, lines 126-155)

The source iterates the raw rows, keeping a running current_position counter
and the current race_url; when the race_url changes the counter resets to 1.
A row with a numeric end_position gets that position with status CLAS and the
counter jumps to position + 1; NC and DQ texts keep their status and take the
counter as position; any other text becomes DNF and takes the counter; in the
last two cases the counter advances by one. -/

/-- A raw end_position cell of the 2018+ results. -/
inductive RawPos where
  | numeric (n : Nat)
  | txt (s : String)
deriving DecidableEq

/-- One raw 2018+ result row: the race key (race_url) and the raw position. -/
structure ResRow where
  race : String
  pos : RawPos
deriving DecidableEq

/-- The per-row step: given the running counter, produce (position, status)
and the next counter. -/
def stepRes (cnt : Nat) (p : RawPos) : (Nat × String) × Nat :=
  match p with
  | RawPos.numeric n => ((n, "CLAS"), n + 1)
  | RawPos.txt s =>
      if s = "NC" ∨ s = "DQ" then ((cnt, s), cnt + 1)
      else ((cnt, "DNF"), cnt + 1)

/-- The loop of clean_results_2018: track the current race_url, resetting the
counter to 1 whenever it changes. -/
def processGo (cur : Option String) (cnt : Nat) :
    List ResRow → List (Nat × String)
  | [] => []
  | r :: rs =>
      (stepRes (if cur = some r.race then cnt else 1) r.pos).1 ::
        processGo (some r.race)
          (stepRes (if cur = some r.race then cnt else 1) r.pos).2 rs

/-- Embedding of clean_results_2018: current_race starts as None and
current_position as 1. -/
def clean_results_2018 (rows : List ResRow) : List (Nat × String) :=
  processGo none 1 rows

/-- Processing of one maximal same-race block with no resets. -/
def blockGo (cnt : Nat) : List ResRow → List (Nat × String)
  | [] => []
  | r :: rs => (stepRes cnt r.pos).1 :: blockGo (stepRes cnt r.pos).2 rs

/-- Split the row list into maximal consecutive blocks of equal race key. -/
def splitRaces : List ResRow → List (List ResRow)
  | [] => []
  | r :: rs =>
      (r :: rs.takeWhile (fun x => x.race == r.race)) ::
        splitRaces (rs.dropWhile (fun x => x.race == r.race))
termination_by l => l.length
decreasing_by
  simp only [List.length_cons]
  exact Nat.lt_succ_of_le ((List.dropWhile_sublist _).length_le)

/-- The specification-level description of the newer-era reconciliation: each
race block is processed independently, with the counter seeded at 1 at the
start of every new race. -/
def racewiseSpec (rows : List ResRow) : List (Nat × String) :=
  ((splitRaces rows).map (blockGo 1)).flatten

/-- Inside a race the loop never resets: processing from a known race key
equals in-block processing of the leading same-race run followed by racewise
processing of the remainder. -/
theorem processGo_span (rows : List ResRow) :
    ∀ (k : String) (cnt : Nat),
      processGo (some k) cnt rows =
        blockGo cnt (rows.takeWhile (fun x => x.race == k)) ++
          racewiseSpec (rows.dropWhile (fun x => x.race == k)) := by
  induction rows with
  | nil =>
      intro k cnt
      simp [processGo, blockGo, racewiseSpec, splitRaces]
  | cons r rs ih =>
      intro k cnt
      by_cases h : r.race = k
      · rw [show processGo (some k) cnt (r :: rs) =
            (stepRes cnt r.pos).1 ::
              processGo (some r.race) (stepRes cnt r.pos).2 rs by
            simp [processGo, h]]
        rw [show (r :: rs).takeWhile (fun x => x.race == k) =
            r :: rs.takeWhile (fun x => x.race == k) by
            simp [List.takeWhile_cons, h]]
        rw [show (r :: rs).dropWhile (fun x => x.race == k) =
            rs.dropWhile (fun x => x.race == k) by
            simp [List.dropWhile_cons, h]]
        rw [show blockGo cnt (r :: rs.takeWhile (fun x => x.race == k)) =
            (stepRes cnt r.pos).1 ::
              blockGo (stepRes cnt r.pos).2
                (rs.takeWhile (fun x => x.race == k)) from rfl]
        rw [List.cons_append, h, ih k (stepRes cnt r.pos).2]
      · have hne : ¬(k = r.race) := fun hc => h hc.symm
        rw [show processGo (some k) cnt (r :: rs) =
            (stepRes 1 r.pos).1 ::
              processGo (some r.race) (stepRes 1 r.pos).2 rs by
            simp [processGo, hne]]
        rw [show (r :: rs).takeWhile (fun x => x.race == k) = [] by
            simp [List.takeWhile_cons, h]]
        rw [show (r :: rs).dropWhile (fun x => x.race == k) = r :: rs by
            simp [List.dropWhile_cons, h]]
        rw [show racewiseSpec (r :: rs) =
            blockGo 1 (r :: rs.takeWhile (fun x => x.race == r.race)) ++
              racewiseSpec (rs.dropWhile (fun x => x.race == r.race)) by
            simp [racewiseSpec, splitRaces]]
        rw [show blockGo 1 (r :: rs.takeWhile (fun x => x.race == r.race)) =
            (stepRes 1 r.pos).1 ::
              blockGo (stepRes 1 r.pos).2
                (rs.takeWhile (fun x => x.race == r.race)) from rfl]
        rw [show blockGo cnt ([] : List ResRow) = [] from rfl,
          List.nil_append, List.cons_append,
          ih r.race (stepRes 1 r.pos).2]

/-- C6.  The newer-era reconciliation is racewise: the output of the running
loop equals processing each maximal block of rows of one race independently
with the counter seeded at 1 (the reset at every new race key); and the
per-row step assigns a numeric end-position with status CLAS advancing the
counter to position + 1, keeps NC and DQ with the counter as position, and
defaults every other non-numeric value to DNF with the counter as position,
advancing the counter by one in both latter cases. -/
theorem results2018_reconciliation :
    (∀ rows : List ResRow, clean_results_2018 rows = racewiseSpec rows) ∧
    (∀ cnt n, stepRes cnt (RawPos.numeric n) = ((n, "CLAS"), n + 1)) ∧
    (∀ cnt, stepRes cnt (RawPos.txt "NC") = ((cnt, "NC"), cnt + 1)) ∧
    (∀ cnt, stepRes cnt (RawPos.txt "DQ") = ((cnt, "DQ"), cnt + 1)) ∧
    (∀ cnt s, s ≠ "NC" → s ≠ "DQ" →
      stepRes cnt (RawPos.txt s) = ((cnt, "DNF"), cnt + 1)) := by
  refine ⟨?_, fun cnt n => rfl, fun cnt => rfl, fun cnt => rfl, ?_⟩
  · intro rows
    cases rows with
    | nil => simp [clean_results_2018, processGo, racewiseSpec, splitRaces]
    | cons r rs =>
        rw [show clean_results_2018 (r :: rs) =
            (stepRes 1 r.pos).1 ::
              processGo (some r.race) (stepRes 1 r.pos).2 rs by
            simp [clean_results_2018, processGo]]
        rw [show racewiseSpec (r :: rs) =
            blockGo 1 (r :: rs.takeWhile (fun x => x.race == r.race)) ++
              racewiseSpec (rs.dropWhile (fun x => x.race == r.race)) by
            simp [racewiseSpec, splitRaces]]
        rw [show blockGo 1 (r :: rs.takeWhile (fun x => x.race == r.race)) =
            (stepRes 1 r.pos).1 ::
              blockGo (stepRes 1 r.pos).2
                (rs.takeWhile (fun x => x.race == r.race)) from rfl]
        rw [List.cons_append, processGo_span rs r.race (stepRes 1 r.pos).2]
  · intro cnt s h1 h2
    simp [stepRes, h1, h2]

/-- C6 witness: the reconciliation theorem's DNF default applied to the raw
text Engine at counter 7. -/
theorem results2018_reconciliation_witness :
    ("Engine" ≠ "NC") ∧ ("Engine" ≠ "DQ") ∧
    stepRes 7 (RawPos.txt "Engine") = ((7, "DNF"), 8) :=
  ⟨by decide, by decide,
    results2018_reconciliation.2.2.2.2 7 "Engine" (by decide) (by decide)⟩

/-! ### Per-driver historical columns and their leakage behaviour
(src/src/cleaning/clean_merged.py, clean_pre_qual lines 50-125 and clean_pre_race
lines 379-454; src/src/cleaning/clean_raw.py, clean_pit_stops_2018 lines 461-474)

On the frame sorted by (driver_id, year, round) the source computes, inside
the per-driver transform: cumulative wins/podiums/points as an indicator (or
value) cumsum shifted by one and 0-filled; rolling average finish as
shift(1).rolling(w, min_periods = w).mean(); and the status rates as the
expanding mean of (shifted status == s), where the shifted NaN at a group
start compares as False, so the expanding mean has no holes and the
fillna(overall_rate) that follows never fires.  The per-driver pit-stop
trailing averages of clean_pit_stops_2018 are
shift(1).rolling(w, min_periods = 1).mean() over the driver stop sequence.
The team rolling average (clean_merged lines 76-80) applies the same
min-periods-1 operator to the team_race_avg_position column in frame order,
which inside a team group is driver-major, not chronological. -/

/-- Indicator cumsum shifted by one position within a group: the accumulator
is the sum of the strictly earlier entries. -/
def shiftedCumsumGo (acc : ℚ) : List ℚ → List ℚ
  | [] => []
  | v :: rest => acc :: shiftedCumsumGo (acc + v) rest

/-- cumsum().shift(1).fillna(0) applied to one group column. -/
def shifted_cumsum (vs : List ℚ) : List ℚ :=
  shiftedCumsumGo 0 vs

/-- cumulative_wins over one driver chronological position column:
(x == 1).cumsum().shift(1).fillna(0). -/
def cumulative_wins_driver (positions : List ℕ) : List ℚ :=
  shifted_cumsum (positions.map (fun p => if p = 1 then 1 else 0))

/-- cumulative_podiums over one driver position column:
x.isin([1,2,3]).cumsum().shift(1).fillna(0). -/
def cumulative_podiums_driver (positions : List ℕ) : List ℚ :=
  shifted_cumsum (positions.map (fun p => if p = 1 ∨ p = 2 ∨ p = 3 then 1 else 0))

/-- cumulative_points over one driver points column:
x.cumsum().shift(1).fillna(0). -/
def cumulative_points_driver (points : List ℚ) : List ℚ :=
  shifted_cumsum points

/-- shift(1).rolling(w, min_periods = w).mean() over one group column: prev
holds the already-seen values newest first, so the window is the w latest
strictly earlier entries, and the cell is missing until w of them exist. -/
def rollingGo (w : Nat) (prev : List ℚ) : List ℚ → List (Option ℚ)
  | [] => []
  | x :: rest =>
      (if w ≤ prev.length then some ((prev.take w).sum / w) else none) ::
        rollingGo w (x :: prev) rest

/-- avg_finish_last_w over one driver chronological position column. -/
def avg_finish_last (w : Nat) (xs : List ℚ) : List (Option ℚ) :=
  rollingGo w [] xs

/-- shift(1).rolling(w, min_periods = 1).mean() over one group column: the
window is the up-to-w latest strictly earlier entries, missing only at the
first row. -/
def pitRollGo (w : Nat) (prev : List ℚ) : List ℚ → List (Option ℚ)
  | [] => []
  | x :: rest =>
      (if prev.length = 0 then none
       else some ((prev.take w).sum / (min w prev.length))) ::
        pitRollGo w (x :: prev) rest

/-- avg_pit_time_last_w over one driver stop-time sequence (sorted by
race_id, stop_number), as computed in clean_pit_stops_2018. -/
def avg_pit_time_last (w : Nat) (xs : List ℚ) : List (Option ℚ) :=
  pitRollGo w [] xs

/-- team_avg_finish_last_w over one team group of the team_race_avg_position
column, taken in frame order: the same min-periods-1 operator, but the frame
order inside a team group is driver-major, so the window walks one driver
before the next regardless of year and round. -/
def team_avg_finish_last (w : Nat) (xs : List ℚ) : List (Option ℚ) :=
  pitRollGo w [] xs

/-- Expanding mean of a boolean column: cnt accumulates the trues so far, idx
the rows so far. -/
def expandingMeanGo (cnt idx : Nat) : List Bool → List ℚ
  | [] => []
  | b :: rest =>
      (((cnt + (if b then 1 else 0) : ℕ) : ℚ) / (idx + 1)) ::
        expandingMeanGo (cnt + (if b then 1 else 0)) (idx + 1) rest

/-- The boolean column (x.shift(1) == s) for one driver group: the shifted-in
NaN at the first row compares as False in pandas. -/
def shiftedMatches (s : String) (statuses : List String) : List Bool :=
  false :: (statuses.dropLast).map (fun x => x == s)

/-- The per-driver status rate column of clean_pre_qual / clean_pre_race.
The fillna(overall_rate) of the source is omitted because the shifted
comparison never produces a hole, so it never fires. -/
def status_rate (s : String) (statuses : List String) : List ℚ :=
  expandingMeanGo 0 0 (shiftedMatches s statuses)

/-- Agreement lemma for the shifted cumsum: the value at row i is determined
by the strictly earlier entries. -/
theorem shiftedCumsumGo_agree :
    ∀ (i : Nat) (xs ys : List ℚ) (acc : ℚ), i < xs.length → i < ys.length →
      xs.take i = ys.take i →
      (shiftedCumsumGo acc xs)[i]? = (shiftedCumsumGo acc ys)[i]? := by
  intro i
  induction i with
  | zero =>
      intro xs ys acc hx hy _
      cases xs with
      | nil => simp at hx
      | cons x xs2 =>
          cases ys with
          | nil => simp at hy
          | cons y ys2 => simp only [shiftedCumsumGo, List.getElem?_cons_zero]
  | succ k ih =>
      intro xs ys acc hx hy htake
      cases xs with
      | nil => simp at hx
      | cons x xs2 =>
          cases ys with
          | nil => simp at hy
          | cons y ys2 =>
              simp only [List.take_succ_cons, List.cons.injEq] at htake
              obtain ⟨rfl, ht⟩ := htake
              simp only [shiftedCumsumGo, List.getElem?_cons_succ]
              exact ih xs2 ys2 (acc + x) (by simpa using hx)
                (by simpa using hy) ht

/-- Agreement lemma for the min-periods-w rolling mean: the value at row i is
determined by the strictly earlier entries. -/
theorem rollingGo_agree (w : Nat) :
    ∀ (i : Nat) (xs ys prev : List ℚ), i < xs.length → i < ys.length →
      xs.take i = ys.take i →
      (rollingGo w prev xs)[i]? = (rollingGo w prev ys)[i]? := by
  intro i
  induction i with
  | zero =>
      intro xs ys prev hx hy _
      cases xs with
      | nil => simp at hx
      | cons x xs2 =>
          cases ys with
          | nil => simp at hy
          | cons y ys2 => simp only [rollingGo, List.getElem?_cons_zero]
  | succ k ih =>
      intro xs ys prev hx hy htake
      cases xs with
      | nil => simp at hx
      | cons x xs2 =>
          cases ys with
          | nil => simp at hy
          | cons y ys2 =>
              simp only [List.take_succ_cons, List.cons.injEq] at htake
              obtain ⟨rfl, ht⟩ := htake
              simp only [rollingGo, List.getElem?_cons_succ]
              exact ih xs2 ys2 (x :: prev) (by simpa using hx)
                (by simpa using hy) ht

/-- Agreement lemma for the min-periods-1 rolling mean: the value at row i is
determined by the strictly earlier entries. -/
theorem pitRollGo_agree (w : Nat) :
    ∀ (i : Nat) (xs ys prev : List ℚ), i < xs.length → i < ys.length →
      xs.take i = ys.take i →
      (pitRollGo w prev xs)[i]? = (pitRollGo w prev ys)[i]? := by
  intro i
  induction i with
  | zero =>
      intro xs ys prev hx hy _
      cases xs with
      | nil => simp at hx
      | cons x xs2 =>
          cases ys with
          | nil => simp at hy
          | cons y ys2 => simp only [pitRollGo, List.getElem?_cons_zero]
  | succ k ih =>
      intro xs ys prev hx hy htake
      cases xs with
      | nil => simp at hx
      | cons x xs2 =>
          cases ys with
          | nil => simp at hy
          | cons y ys2 =>
              simp only [List.take_succ_cons, List.cons.injEq] at htake
              obtain ⟨rfl, ht⟩ := htake
              simp only [pitRollGo, List.getElem?_cons_succ]
              exact ih xs2 ys2 (x :: prev) (by simpa using hx)
                (by simpa using hy) ht

/-- Agreement lemma for the expanding mean: the value at row i is determined
by the entries up to and including row i of the boolean column. -/
theorem expandingMeanGo_agree :
    ∀ (i : Nat) (bs cs : List Bool) (cnt idx : Nat), i < bs.length →
      i < cs.length → bs.take (i + 1) = cs.take (i + 1) →
      (expandingMeanGo cnt idx bs)[i]? = (expandingMeanGo cnt idx cs)[i]? := by
  intro i
  induction i with
  | zero =>
      intro bs cs cnt idx hb hc htake
      cases bs with
      | nil => simp at hb
      | cons b bs2 =>
          cases cs with
          | nil => simp at hc
          | cons c cs2 =>
              simp only [List.take_succ_cons, List.take_zero,
                List.cons.injEq] at htake
              obtain ⟨rfl, -⟩ := htake
              simp only [expandingMeanGo, List.getElem?_cons_zero]
  | succ k ih =>
      intro bs cs cnt idx hb hc htake
      cases bs with
      | nil => simp at hb
      | cons b bs2 =>
          cases cs with
          | nil => simp at hc
          | cons c cs2 =>
              simp only [List.take_succ_cons, List.cons.injEq] at htake
              obtain ⟨rfl, ht⟩ := htake
              simp only [expandingMeanGo, List.getElem?_cons_succ]
              exact ih bs2 cs2 (cnt + (if b then 1 else 0)) (idx + 1)
                (by simpa using hb) (by simpa using hc) ht

/-- Taking i elements of dropLast is taking i elements of the list itself, as
long as i stays inside the list. -/
theorem dropLast_take_of_lt {xs : List String} {i : Nat} (h : i < xs.length) :
    (xs.dropLast).take i = xs.take i := by
  rw [List.dropLast_eq_take, List.take_take]
  congr 1
  omega

/-- Prefix agreement survives mapping. -/
theorem map_take_agree {α β : Type} (f : α → β) {ps qs : List α} {i : Nat}
    (h : ps.take i = qs.take i) :
    (ps.map f).take i = (qs.map f).take i := by
  rw [← List.map_take, ← List.map_take, h]

/-- C1 (amended).  Leakage behaviour of the historical feature families, per
driver (or per circuit) on chronologically sorted rows.  No later data enters:
the cumulative win/podium/points counts, the status rates, a driver's own
rolling average finish, and a driver's pit-stop trailing averages at row i are
unchanged under any mutation of the rows at or after i (agreement on the first
i entries), and the circuit flag features of a row with at least one earlier
race at its circuit are unchanged under any mutation of races with race id at
or after the row's (cumulative_races takes only the race keys as input, so
outcome mutations cannot reach it at all).  Later data does enter at the
stated exceptions: a circuit's first-ever race takes its flag features from
the dataset-wide global statistics (the counterexample); a null pit trailing
average is filled in clean_merged from table-wide means — shown by two merged
tables agreeing on every race before race 2 whose race-1 row is imputed 10
versus 20; and the team rolling average runs in driver-major frame order —
shown by a team column A(r1), A(r2), B(r1), B(r2) where mutating A's later
round-2 entry changes the value at B's round-1 row. -/
theorem historical_features_no_leakage :
    (∀ (ps qs : List ℕ) (i : Nat), i < ps.length → i < qs.length →
      ps.take i = qs.take i →
      (cumulative_wins_driver ps)[i]? = (cumulative_wins_driver qs)[i]? ∧
      (cumulative_podiums_driver ps)[i]? =
        (cumulative_podiums_driver qs)[i]?) ∧
    (∀ (ps qs : List ℚ) (i : Nat), i < ps.length → i < qs.length →
      ps.take i = qs.take i →
      (cumulative_points_driver ps)[i]? = (cumulative_points_driver qs)[i]?) ∧
    (∀ (sts uts : List String) (s : String) (i : Nat), i < sts.length →
      i < uts.length → sts.take i = uts.take i →
      (status_rate s sts)[i]? = (status_rate s uts)[i]?) ∧
    (∀ (w : Nat) (xs ys : List ℚ) (i : Nat), i < xs.length → i < ys.length →
      xs.take i = ys.take i →
      (avg_finish_last w xs)[i]? = (avg_finish_last w ys)[i]?) ∧
    (∀ (w : Nat) (xs ys : List ℚ) (i : Nat), i < xs.length → i < ys.length →
      xs.take i = ys.take i →
      (avg_pit_time_last w xs)[i]? = (avg_pit_time_last w ys)[i]?) ∧
    (∀ (fs gs : List FlagRecord) (c r : Nat),
      fs.filter (fun x => decide (x.raceId < r)) =
        gs.filter (fun x => decide (x.raceId < r)) →
      flagHistory fs c r ≠ [] →
      yellow_flag_prob fs c r = yellow_flag_prob gs c r ∧
      avg_yellow_count fs c r = avg_yellow_count gs c r) ∧
    (pitValAt (imputePitAverages [⟨1, 1, none⟩, ⟨2, 2, some 10⟩]) 0 =
        some (some 10) ∧
      pitValAt (imputePitAverages [⟨1, 1, none⟩, ⟨2, 2, some 20⟩]) 0 =
        some (some 20)) ∧
    ((team_avg_finish_last 3 [2, 10, 2, 10])[2]? = some (some 6) ∧
      (team_avg_finish_last 3 [2, 20, 2, 10])[2]? = some (some 11)) := by
  refine ⟨?_, ?_, ?_, ?_, ?_, ?_, ⟨?_, ?_⟩, ⟨?_, ?_⟩⟩
  · intro ps qs i hp hq htake
    constructor
    · exact shiftedCumsumGo_agree i _ _ 0 (by simpa using hp)
        (by simpa using hq) (map_take_agree _ htake)
    · exact shiftedCumsumGo_agree i _ _ 0 (by simpa using hp)
        (by simpa using hq) (map_take_agree _ htake)
  · intro ps qs i hp hq htake
    exact shiftedCumsumGo_agree i ps qs 0 hp hq htake
  · intro sts uts s i hs hu htake
    have hlen1 : i < (shiftedMatches s sts).length := by
      simp only [shiftedMatches, List.length_cons, List.length_map,
        List.length_dropLast]
      omega
    have hlen2 : i < (shiftedMatches s uts).length := by
      simp only [shiftedMatches, List.length_cons, List.length_map,
        List.length_dropLast]
      omega
    have htk : (shiftedMatches s sts).take (i + 1) =
        (shiftedMatches s uts).take (i + 1) := by
      simp only [shiftedMatches, List.take_succ_cons, List.cons.injEq,
        true_and]
      rw [← List.map_take, ← List.map_take, dropLast_take_of_lt hs,
        dropLast_take_of_lt hu, htake]
    exact expandingMeanGo_agree i _ _ 0 0 hlen1 hlen2 htk
  · intro w xs ys i hx hy htake
    exact rollingGo_agree w i xs ys [] hx hy htake
  · intro w xs ys i hx hy htake
    exact pitRollGo_agree w i xs ys [] hx hy htake
  · intro fs gs c r hagree hhist
    exact flag_features_agree_of_history fs gs c r hagree hhist
  · norm_num [imputePitAverages, pitFallback123, fillGlobalMean, fillRaceAvg,
      fillTeamHistAvg, fillTeamRaceAvg, fillWith, meanOpt, pitValAt,
      List.filter_cons, List.filterMap]
  · norm_num [imputePitAverages, pitFallback123, fillGlobalMean, fillRaceAvg,
      fillTeamHistAvg, fillTeamRaceAvg, fillWith, meanOpt, pitValAt,
      List.filter_cons, List.filterMap]
  · norm_num [team_avg_finish_last, pitRollGo]
  · norm_num [team_avg_finish_last, pitRollGo]

/-- C1 witness: the no-leakage theorem applied to the rolling average finish
of a driver with four races, at the fourth row, for two position histories
that agree on the first three races and differ at the fourth. -/
theorem historical_features_no_leakage_witness :
    (3 : Nat) < ([1, 2, 3, 4] : List ℚ).length ∧
    (3 : Nat) < ([1, 2, 3, 9] : List ℚ).length ∧
    ([1, 2, 3, 4] : List ℚ).take 3 = ([1, 2, 3, 9] : List ℚ).take 3 ∧
    (avg_finish_last 3 [1, 2, 3, 4])[3]? = (avg_finish_last 3 [1, 2, 3, 9])[3]? :=
  ⟨by decide, by decide, by decide,
    historical_features_no_leakage.2.2.2.1 3 [1, 2, 3, 4] [1, 2, 3, 9] 3
      (by decide) (by decide) (by decide)⟩

end F1Pipeline
